import Mathlib

/-!
Verification of the podspec-to-Xcode-project translation module and its
surrounding prebuild/clean tasks (tools/expotools, publish-packages).

The TypeScript source is shallowly embedded: JavaScript objects with string
keys become insertion-ordered association lists, JavaScript string/number
values become the `JSValue` sum, `Promise<T | null>` results become
`Option`, and the handful of library calls (path.join, Array.join, trim,
the regex replaces) are modelled as explicit functions over `List Char`.
-/

/-- Values stored in Xcode configuration objects. The source stores both
strings and one number (the semver major used for CFBundleVersion), so a
JavaScript value here is a string or a number. -/
inductive JSValue where
  | str : String → JSValue
  | num : Nat → JSValue
deriving DecidableEq

/-- Coercion of a JSValue to a string, as JavaScript string concatenation
performs on its operands. -/
def jsValueToString : JSValue → String
  | JSValue.str s => s
  | JSValue.num n => toString n

/-- Lookup in a JavaScript object modelled as an insertion-ordered
association list: the value at the first matching key, if any. -/
def lookupKey {α : Type} (m : List (String × α)) (k : String) : Option α :=
  (m.find? (fun kv => kv.1 == k)).map (fun kv => kv.2)

/-- Assignment `m[k] = v` on a JavaScript object: an existing key keeps its
insertion position and gets the new value; a fresh key is appended. -/
def setKey {α : Type} (m : List (String × α)) (k : String) (v : α) : List (String × α) :=
  if m.any (fun kv => kv.1 == k) then
    m.map (fun kv => if kv.1 == k then (k, v) else kv)
  else
    m ++ [(k, v)]

/-- Model of JavaScript String.prototype.trim: drop whitespace characters
from both ends. -/
def jsTrim (s : String) : String :=
  ⟨((s.data.dropWhile Char.isWhitespace).reverse.dropWhile Char.isWhitespace).reverse⟩

/-- Model of Array.prototype.join with a single-space separator, written
over character lists. -/
def joinData : List String → List Char
  | [] => []
  | [x] => x.data
  | x :: y :: ys => x.data ++ ' ' :: joinData (y :: ys)

/-- Model of Array.prototype.join with a single-space separator. -/
def joinSpace (l : List String) : String :=
  ⟨joinData l⟩

/-- Models path.join from the Node standard library for the two-segment
joins used in this module: joining with an empty segment returns the base
unchanged, otherwise base and segment are joined with a slash. The segments
used here contain no separators or dot segments, so the normalization that
path.join would additionally perform never fires. -/
def pathJoin (base segment : String) : String :=
  if segment = "" then base else base ++ "/" ++ segment

/-- Models path.dirname from the Node standard library for the plain paths
used here: the part before the final slash, the root for a top-level entry,
and a dot when there is no slash at all. -/
def pathDirname (p : String) : String :=
  if '/' ∈ p.data then
    let pre := ((p.data.reverse.dropWhile (fun c => c ≠ '/')).drop 1).reverse
    if pre = [] then "/" else ⟨pre⟩
  else "."

/-- Substring containment over character lists: whether the pattern occurs
starting at some position of the list. -/
def containsPattern (pat : List Char) : List Char → Bool
  | [] => pat.isPrefixOf ([] : List Char)
  | c :: rest => pat.isPrefixOf (c :: rest) || containsPattern pat rest

/-- Test of `prevValue.includes("$(inherited)")`: substring containment. -/
def includesInheritedToken (s : String) : Bool :=
  containsPattern "$(inherited)".data s.data

/-- Continuation of a match attempt of the regex in mergeXcodeConfigValue
after its leading backslash: the pattern still has to match `s*`, then the
end-of-input anchor, then the literal characters of the token. Consuming the
run of letters s, the anchor succeeds only at the end of input, after which
the literal "(inherited)" would have to be a prefix of the empty remainder,
which fails. -/
def inheritedPatternTail : List Char → Bool
  | [] => "(inherited)".data.isPrefixOf ([] : List Char)
  | c :: rest => if c = 's' then inheritedPatternTail rest else false

/-- Match attempt, at one position, of the regex written in the source as
the pattern between the slashes of the third argument-building replace call
of mergeXcodeConfigValue: a literal backslash (spelled with two backslashes),
a run of the letter s, the end-of-input anchor written as a bare dollar, the
literal "(inherited)", then whitespace. -/
def inheritedPatternMatchesAt : List Char → Bool
  | [] => false
  | c :: rest => if c = '\\' then inheritedPatternTail rest else false

/-- Whether the regex of mergeXcodeConfigValue matches anywhere in the
list, scanning every start position as a global replace would. -/
def inheritedPatternMatchesIn : List Char → Bool
  | [] => inheritedPatternMatchesAt []
  | c :: rest => inheritedPatternMatchesAt (c :: rest) || inheritedPatternMatchesIn rest

/-- Result of the replace call in mergeXcodeConfigValue. The pattern holds
an end-of-input anchor in front of required literal text, so it matches no
substring of any input (theorem inheritedPatternMatchesIn_eq_false below);
a global replace with a pattern that never matches returns its input
unchanged. -/
def collapseInheritedReplace (s : String) : String :=
  s

/-- Merges one Xcode config value over the previous one for the same key,
from mergeXcodeConfigValue in the source: when the previous value is a
non-empty string containing the inherited token, the result is the token,
a space, and the concatenation of both values run through the (dead)
collapsing replace; otherwise the next value wins outright. -/
def mergeXcodeConfigValue (prevValue : Option JSValue) (nextValue : JSValue) : JSValue :=
  match prevValue with
  | some (JSValue.str p) =>
    if p ≠ "" ∧ includesInheritedToken p = true then
      JSValue.str ("$(inherited) " ++
        collapseInheritedReplace (p ++ " " ++ jsValueToString nextValue))
    else nextValue
  | _ => nextValue

/-- Merges Xcode configs from left to right, from mergeXcodeConfigs in the
source: fold the configs in order, setting every key of every config onto
the accumulated result through mergeXcodeConfigValue. -/
def mergeXcodeConfigs (configs : List (List (String × JSValue))) : List (String × JSValue) :=
  configs.foldl
    (fun result config =>
      config.foldl
        (fun res kv => setKey res kv.1 (mergeXcodeConfigValue (lookupKey res kv.1) kv.2))
        result)
    []

/-- Anchored, non-global replace such as the UM and EX prefix rewrites of
podNameToBundleId: when the pattern is a prefix of the input it is replaced
once, otherwise the input is unchanged. -/
def anchoredReplace (pat repl cs : List Char) : List Char :=
  if pat.isPrefixOf cs then repl ++ cs.drop pat.length else cs

/-- The word-character class of a JavaScript regex: ASCII letters, digits
and the underscore. -/
def isWordChar (c : Char) : Bool :=
  c.isAlpha || c.isDigit || c == '_'

/-- The character class of the third replace of podNameToBundleId: an
underscore, or any character that is neither a word character, a digit,
nor a dot. -/
def isBundleSep (c : Char) : Bool :=
  c == '_' || !(isWordChar c || c.isDigit || c == '.')

/-- Fuel-indexed scan for the third replace of podNameToBundleId: every
maximal run of separator characters collapses to a single dot. Each step
consumes at least one character, so fuel equal to the input length always
suffices; exhausted fuel is unreachable from collapseSeps below. -/
def collapseSepsFuel : Nat → List Char → List Char
  | 0, _ => []
  | _ + 1, [] => []
  | fuel + 1, c :: rest =>
    if isBundleSep c then
      '.' :: collapseSepsFuel fuel (rest.dropWhile isBundleSep)
    else
      c :: collapseSepsFuel fuel rest

/-- The third replace of podNameToBundleId: runs of underscores and other
non-alphanumeric, non-dot characters become single dots. -/
def collapseSeps (cs : List Char) : List Char :=
  collapseSepsFuel cs.length cs

/-- Fuel-indexed scan for the fourth replace of podNameToBundleId, the
global replace of any run of dots followed by a run of ASCII uppercase
letters by a dot and the lower-cased run. Scanning left to right: an
uppercase run is replaced together with the dots directly before it; dots
not followed by an uppercase letter, and all other characters, pass
through. Each step consumes at least one character, so fuel equal to the
input length always suffices. -/
def lowerUpperFuel : Nat → List Char → List Char
  | 0, _ => []
  | _ + 1, [] => []
  | fuel + 1, c :: rest =>
    if c.isUpper then
      '.' :: (c :: rest.takeWhile Char.isUpper).map Char.toLower
        ++ lowerUpperFuel fuel (rest.dropWhile Char.isUpper)
    else if c = '.' then
      match rest.dropWhile (fun x => x == '.') with
      | [] => c :: rest.takeWhile (fun x => x == '.')
      | d :: ds =>
        if d.isUpper then
          '.' :: (d :: ds.takeWhile Char.isUpper).map Char.toLower
            ++ lowerUpperFuel fuel (ds.dropWhile Char.isUpper)
        else
          (c :: rest.takeWhile (fun x => x == '.')) ++ lowerUpperFuel fuel (d :: ds)
    else
      c :: lowerUpperFuel fuel rest

/-- The fourth replace of podNameToBundleId. -/
def lowerUpper (cs : List Char) : List Char :=
  lowerUpperFuel cs.length cs

/-- Conversion from pod name to bundle identifier, from podNameToBundleId
in the source: rewrite a leading UM to unimodules, then a leading EX to
expo, collapse separator runs to dots, then replace every run of dots
followed by uppercase letters by a dot and the lower-cased letters. -/
def podNameToBundleId (podName : String) : String :=
  ⟨lowerUpper (collapseSeps (anchoredReplace "EX".data "expo".data
    (anchoredReplace "UM".data "unimodules".data podName.data)))⟩

/-- A TypeScript value that is a string, an array of strings, or absent,
as accepted by arrayize in the source. -/
inductive StrOrArr where
  | one : String → StrOrArr
  | many : List String → StrOrArr
  | null : StrOrArr
deriving DecidableEq

/-- Ensures the value is an array, from arrayize in the source: arrays pass
through, a single value is wrapped, null or undefined becomes empty. -/
def arrayize : StrOrArr → List String
  | StrOrArr.many xs => xs
  | StrOrArr.one s => [s]
  | StrOrArr.null => []

/-- Modelled from the spec: the package manifest (Podspec type of the
Packages module, which is not under src). Fields follow the data model of
the spec and the fields the translator reads: name, version, platform map,
dependency map, source and exclude globs, compiler flags, declared
frameworks, pod-level build-setting overrides, and info-plist overrides. -/
structure Podspec where
  name : String
  version : String
  platforms : List (String × String)
  dependencies : Option (List (String × String))
  source_files : StrOrArr
  exclude_files : StrOrArr
  compiler_flags : Option String
  frameworks : StrOrArr
  pod_target_xcconfig : Option (List (String × JSValue))
  info_plist : Option (List (String × JSValue))
deriving DecidableEq

/-- One source rule of a project-spec target. -/
structure ProjectSpecSource where
  path : String
  name : Option String
  createIntermediateGroups : Option Bool
  includes : List String
  excludes : List String
  compilerFlags : Option String
deriving DecidableEq

/-- One dependency descriptor of a project-spec target; all fields are
optional as in the source type. -/
structure ProjectSpecDependency where
  framework : Option String := none
  implicit : Option Bool := none
  target : Option String := none
  sdk : Option String := none
  embed : Option Bool := none
  link : Option Bool := none
  codeSign : Option Bool := none
  removeHeaders : Option Bool := none
  weak : Option Bool := none
deriving DecidableEq

/-- The single target produced by the translator. The platform list holds
the translated platform names; an unmapped platform key yields none, as the
lookup in the fixed mapping table yields undefined there. -/
structure ProjectSpecTarget where
  type : String
  platform : List (Option String)
  sources : List ProjectSpecSource
  dependencies : List ProjectSpecDependency
  settings : List (String × JSValue)
  infoPath : String
  infoProperties : List (String × JSValue)
deriving DecidableEq

/-- Generator options of the produced spec. -/
structure ProjectSpecOptions where
  minimumXcodeGenVersion : String
  deploymentTarget : List (String × String)
deriving DecidableEq

/-- The base build settings placed at the top level of the produced spec. -/
structure BaseSettings where
  PRODUCT_BUNDLE_IDENTIFIER : String
  IPHONEOS_DEPLOYMENT_TARGET : Option String
  FRAMEWORK_SEARCH_PATHS : String
  HEADER_SEARCH_PATHS : String
  VALIDATE_WORKSPACE_SKIPPED_SDK_FRAMEWORKS : String
deriving DecidableEq

/-- The produced project spec. The source builds a targets record with the
single key podspec.name; that key is kept here as targetName. -/
structure ProjectSpec where
  name : String
  targetName : String
  target : ProjectSpecTarget
  options : ProjectSpecOptions
  settingsBase : BaseSettings
deriving DecidableEq

/-- The fixed platform-name mapping table PLATFORMS_MAPPING. -/
def PLATFORMS_MAPPING : String → Option String
  | "ios" => some "iOS"
  | "osx" => some "macOS"
  | "macos" => some "macOS"
  | "tvos" => some "tvOS"
  | "watchos" => some "watchOS"
  | _ => none

/-- The key under which a platform lands in the deployment-target object:
the mapped name, or the string rendering of undefined when the platform is
missing from the mapping table, as a JavaScript computed member assignment
coerces an undefined key. -/
def mappedPlatformKey (platform : String) : String :=
  (PLATFORMS_MAPPING platform).getD "undefined"

/-- The generated info-plist file name INFO_PLIST_FILENAME. -/
def INFO_PLIST_FILENAME : String :=
  "Info-generated.plist"

/-- Modelled from the spec: the absolute iOS directory of the repository
(IOS_DIR of the Constants module, which is not under src). The claims only
depend on paths being rooted below it, never on its exact value. -/
def IOS_DIR : String :=
  "/expo/ios"

/-- The Pods directory below the iOS directory. -/
def PODS_DIR : String :=
  pathJoin IOS_DIR "Pods"

/-- The fixed public-headers root PODS_PUBLIC_HEADERS_DIR. -/
def PODS_PUBLIC_HEADERS_DIR : String :=
  pathJoin (pathJoin PODS_DIR "Headers") "Public"

/-- Models semver.major from the semver package: the numeric value of the
leading component of the version, before the first dot. The library parses
the full version and throws on malformed input; this model validates only
the leading component, which is all the translator consumes, so the
translator below reports failure (none) exactly when this returns none. -/
def semverMajor (version : String) : Option Nat :=
  let major := version.data.takeWhile (fun c => c ≠ '.')
  if major ≠ [] ∧ major.all Char.isDigit then
    some (major.foldl (fun n c => n * 10 + (c.toNat - 48)) 0)
  else
    none

/-- The declared dependency names, in declaration order: the keys of the
dependency map when present, empty otherwise. -/
def depNames (podspec : Podspec) : List String :=
  match podspec.dependencies with
  | none => []
  | some deps => deps.map (fun kv => kv.1)

/-- Insertion-ordered deduplication, as the Set constructor performs on the
spread list it receives: keep the first occurrence of every element. -/
def dedupFirst (l : List String) : List String :=
  l.foldl (fun acc x => if x ∈ acc then acc else acc ++ [x]) []

/-- The nine fixed well-known library names listed in
constructHeaderSearchPaths after the direct dependencies. -/
def fixedHeaderPods : List String :=
  ["DoubleConversion", "React-callinvoker", "React-Core", "React-cxxreact",
   "React-jsi", "React-jsiexecutor", "React-jsinspector", "Yoga", "glog"]

/-- The set of pod names whose public-header directories are put on the
header search path: the empty name, the dependency names, and the fixed
well-known names, deduplicated in insertion order. -/
def podsToSearchForHeaders (dependencies : List String) : List String :=
  dedupFirst ("" :: dependencies ++ fixedHeaderPods)

/-- One double-quoted public-header path as constructHeaderSearchPaths
renders it. -/
def quotedHeaderPath (podName : String) : String :=
  "\"" ++ pathJoin PODS_PUBLIC_HEADERS_DIR podName ++ "\""

/-- Header search path construction, from constructHeaderSearchPaths in
the source: the inherited token, then the quoted public-header paths of the
deduplicated pod-name set, space-joined and trimmed. -/
def constructHeaderSearchPaths (dependencies : List String) : String :=
  jsTrim ("$(inherited) " ++
    joinSpace ((podsToSearchForHeaders dependencies).map quotedHeaderPath))

/-- Framework search path construction, from constructFrameworkSearchPaths
in the source: the inherited token, then the containing directories of the
framework-carrying resolved dependencies, space-joined and trimmed. -/
def constructFrameworkSearchPaths (dependencies : List ProjectSpecDependency) : String :=
  jsTrim ("$(inherited) " ++
    joinSpace ((dependencies.filterMap (fun d => d.framework)).map pathDirname))

/-- Creates the xcodegen spec from the podspec, from
createSpecFromPodspecAsync in the source. The dependency resolver models
the injected asynchronous lookup: none stands for a null resolution. The
mapAsync fan-out resolves the declared names in order, and filter(Boolean)
drops the nulls. The semver.major call throws on a malformed version, so
the translation is none exactly there. -/
def createSpecFromPodspecAsync (podspec : Podspec)
    (dependencyResolver : String → Option ProjectSpecDependency) : Option ProjectSpec :=
  match semverMajor podspec.version with
  | none => none
  | some major =>
    let deploymentTarget :=
      podspec.platforms.foldl (fun acc kv => setKey acc (mappedPlatformKey kv.1) kv.2) []
    let dependenciesNames := depNames podspec
    let dependencies := (dependenciesNames.map dependencyResolver).filterMap id
    let bundleId := podNameToBundleId podspec.name
    some {
      name := podspec.name
      targetName := podspec.name
      target := {
        type := "framework"
        platform := podspec.platforms.map (fun kv => PLATFORMS_MAPPING kv.1)
        sources := [{
          path := ""
          name := some podspec.name
          createIntermediateGroups := some true
          includes := arrayize podspec.source_files
          excludes := [INFO_PLIST_FILENAME, podspec.name ++ ".spec.json", "*.xcodeproj",
            "*.xcframework", "*.podspec"] ++ arrayize podspec.exclude_files
          compilerFlags := podspec.compiler_flags
        }]
        dependencies :=
          (arrayize podspec.frameworks).map
            (fun framework => { sdk := some (framework ++ ".framework") })
          ++ dependencies
        settings := mergeXcodeConfigs
          [podspec.pod_target_xcconfig.getD [], [("MACH_O_TYPE", JSValue.str "staticlib")]]
        infoPath := INFO_PLIST_FILENAME
        infoProperties := mergeXcodeConfigs
          [[("CFBundleIdentifier", JSValue.str bundleId),
            ("CFBundleName", JSValue.str podspec.name),
            ("CFBundleShortVersionString", JSValue.str podspec.version),
            ("CFBundleVersion", JSValue.num major)],
           podspec.info_plist.getD []]
      }
      options := {
        minimumXcodeGenVersion := "2.18.0"
        deploymentTarget := deploymentTarget
      }
      settingsBase := {
        PRODUCT_BUNDLE_IDENTIFIER := bundleId
        IPHONEOS_DEPLOYMENT_TARGET := lookupKey podspec.platforms "ios"
        FRAMEWORK_SEARCH_PATHS := constructFrameworkSearchPaths dependencies
        HEADER_SEARCH_PATHS := constructHeaderSearchPaths dependenciesNames
        VALIDATE_WORKSPACE_SKIPPED_SDK_FRAMEWORKS := joinSpace (arrayize podspec.frameworks)
      }
    }

/-- One external effect performed by generateXcodeProjectAsync, in order:
writing the serialized spec JSON, spawning the xcodegen subprocess on it,
and removing a file. -/
inductive FsEffect where
  | outputJSON : String → FsEffect
  | spawnXcodegen : String → FsEffect
  | removeFile : String → FsEffect
deriving DecidableEq

/-- The path a file-system effect touches. -/
def effectPath : FsEffect → String
  | FsEffect.outputJSON p => p
  | FsEffect.spawnXcodegen p => p
  | FsEffect.removeFile p => p

/-- The straight-line effect sequence of generateXcodeProjectAsync: write
the spec file, run the generator on it, remove the spec file. -/
def generateXcodeProjectScript (dir specName : String) : List FsEffect :=
  [FsEffect.outputJSON (pathJoin dir (specName ++ ".spec.json")),
   FsEffect.spawnXcodegen (pathJoin dir (specName ++ ".spec.json")),
   FsEffect.removeFile (pathJoin dir (specName ++ ".spec.json"))]

/-- Runs an effect sequence in order. The spawn of the generator is the
only fallible step: when spawnOk is false it throws, so the effects after
it are abandoned and the run does not complete. Returns the effects that
were performed and whether the run completed. -/
def runEffects (spawnOk : Bool) : List FsEffect → List FsEffect × Bool
  | [] => ([], true)
  | FsEffect.spawnXcodegen p :: rest =>
    if spawnOk then
      ((FsEffect.spawnXcodegen p :: (runEffects spawnOk rest).1), (runEffects spawnOk rest).2)
    else
      ([], false)
  | e :: rest => ((e :: (runEffects spawnOk rest).1), (runEffects spawnOk rest).2)

/-- Generates the Xcode project from a spec, from generateXcodeProjectAsync
in the source: run the effect script; when it completes, the expected
project path is returned, and when the subprocess throws, the exception
propagates and no value is produced. -/
def generateXcodeProjectAsync (dir : String) (spec : ProjectSpec) (spawnOk : Bool) :
    List FsEffect × Option String :=
  let run := runEffects spawnOk (generateXcodeProjectScript dir spec.name)
  (run.1, if run.2 then some (pathJoin dir (spec.name ++ ".xcodeproj")) else none)

/-- A package record; the tasks only consult its name for logging and hand
the whole record to the external prebuild and clean operations. -/
structure Pkg where
  packageName : String
deriving DecidableEq

/-- Modelled from the spec: a parcel is a package entry plus its publishing
metadata (the Parcel type of the task pipeline is not under src); the two
tasks here destructure only the package out of it. -/
structure Parcel where
  pkg : Pkg
deriving DecidableEq

/-- One observable step of the clean and prebuild tasks: logger lines and
the two external PreBuilder operations. -/
inductive TaskEvent where
  | blankLine : TaskEvent
  | cleanInfoLine : TaskEvent
  | prebuildInfoLine : String → TaskEvent
  | cleanFrameworks : List Pkg → TaskEvent
  | prebuildPackage : Pkg → TaskEvent
deriving DecidableEq

/-- The cleanPrebuilds task: log a blank line, filter the parcels by the
prebuildable predicate, and when any remain, log an info line and hand the
whole filtered batch to cleanFrameworksAsync once. -/
def cleanPrebuilds (canPrebuildPackage : Pkg → Bool) (parcels : List Parcel) : List TaskEvent :=
  let packagesToClean := (parcels.map (fun parcel => parcel.pkg)).filter canPrebuildPackage
  TaskEvent.blankLine ::
    (if packagesToClean.length ≠ 0 then
      [TaskEvent.cleanInfoLine, TaskEvent.cleanFrameworks packagesToClean]
    else [])

/-- The prebuildPackages task: log a blank line, then for each parcel in
order, skip it unless prebuildable, otherwise log an info line naming the
package and run prebuildPackageAsync on it. -/
def prebuildPackages (canPrebuildPackage : Pkg → Bool) (parcels : List Parcel) : List TaskEvent :=
  TaskEvent.blankLine ::
    (parcels.map (fun parcel =>
      if canPrebuildPackage parcel.pkg then
        [TaskEvent.prebuildInfoLine parcel.pkg.packageName,
         TaskEvent.prebuildPackage parcel.pkg]
      else [])).flatten

/-- Selects the argument of a clean-frameworks invocation event. -/
def cleanArg : TaskEvent → Option (List Pkg)
  | TaskEvent.cleanFrameworks pkgs => some pkgs
  | _ => none

/-- Selects the argument of a prebuild invocation event. -/
def prebuildArg : TaskEvent → Option Pkg
  | TaskEvent.prebuildPackage p => some p
  | _ => none

/-- Selects the package name of a prebuild info line. -/
def prebuildLogName : TaskEvent → Option String
  | TaskEvent.prebuildInfoLine n => some n
  | _ => none

/-- A concrete manifest used to instantiate the deployment-target claim:
its platform map is the single entry ios to 12.0. -/
def iosOnlyPodspec : Podspec where
  name := "EXCamera"
  version := "1.0.0"
  platforms := [("ios", "12.0")]
  dependencies := none
  source_files := StrOrArr.one "**/*.m"
  exclude_files := StrOrArr.null
  compiler_flags := none
  frameworks := StrOrArr.null
  pod_target_xcconfig := none
  info_plist := none

/-- A concrete manifest declaring the dependencies Z then Y, used to
instantiate the dependency-resolution claim. -/
def zyPodspec : Podspec where
  name := "EXCamera"
  version := "1.0.0"
  platforms := [("ios", "12.0")]
  dependencies := some [("Z", "*"), ("Y", "*")]
  source_files := StrOrArr.one "**/*.m"
  exclude_files := StrOrArr.null
  compiler_flags := none
  frameworks := StrOrArr.null
  pod_target_xcconfig := none
  info_plist := none

/-- The descriptor a concrete resolver yields for the name Y. -/
def yDependency : ProjectSpecDependency where
  framework := some "ReactCommon/React.framework"

/-- A concrete resolver that yields a descriptor for Y and nothing for any
other name, Z in particular. -/
def zyResolver (name : String) : Option ProjectSpecDependency :=
  if name = "Y" then some yDependency else none

/-- A concrete manifest for the end-to-end claim: source files glob,
one declared framework, version 1.2.3. -/
def coreLocationPodspec : Podspec where
  name := "EXLocation"
  version := "1.2.3"
  platforms := [("ios", "12.0")]
  dependencies := none
  source_files := StrOrArr.one "Sources/**/*.m"
  exclude_files := StrOrArr.null
  compiler_flags := none
  frameworks := StrOrArr.many ["CoreLocation"]
  pod_target_xcconfig := none
  info_plist := none

/-- A resolver that resolves nothing, for claims whose manifests declare no
dependencies. -/
def emptyResolver (_name : String) : Option ProjectSpecDependency :=
  none

theorem inheritedPatternTail_eq_false : ∀ cs, inheritedPatternTail cs = false := by
  intro cs
  induction cs with
  | nil => decide
  | cons c rest ih => simp [inheritedPatternTail, ih]

theorem inheritedPatternMatchesAt_eq_false : ∀ cs, inheritedPatternMatchesAt cs = false := by
  intro cs
  cases cs with
  | nil => rfl
  | cons c rest => simp [inheritedPatternMatchesAt, inheritedPatternTail_eq_false]

theorem inheritedPatternMatchesIn_eq_false : ∀ cs, inheritedPatternMatchesIn cs = false := by
  intro cs
  induction cs with
  | nil => decide
  | cons c rest ih =>
    rw [inheritedPatternMatchesIn, inheritedPatternMatchesAt_eq_false, ih]
    rfl

theorem mergeXcodeConfigValue_none (v : JSValue) : mergeXcodeConfigValue none v = v :=
  rfl

/-- C1: the claim states that merging a value containing the inherited
token collapses the embedded tokens of the concatenation, so that merging
A mapped to the token plus x with A mapped to y yields the token, x, y.
The code does not: its collapsing regex puts the end-of-input anchor in
front of required literal text, so it never matches and the replace is a
no-op; the merge duplicates the inherited token instead. This theorem
evaluates the embedded merge at the failing input. -/
theorem claim_C1 :
    mergeXcodeConfigs [[("A", JSValue.str "$(inherited) x")], [("A", JSValue.str "y")]]
      = [("A", JSValue.str "$(inherited) $(inherited) x y")] := by
  decide

/-- C3: the bundle-identifier derivation maps EXFoo to expo.foo and
UMBar_Baz to unimodules.bar.baz. -/
theorem claim_C3 :
    podNameToBundleId "EXFoo" = "expo.foo" ∧
    podNameToBundleId "UMBar_Baz" = "unimodules.bar.baz" := by
  decide

/-- C8: when the existing value for a key does not contain the inherited
token, the later value fully replaces it, both at the single-value level
and through a two-layer merge of maps at the same key. -/
theorem claim_C8 (k v1 : String) (v2 : JSValue) (h : includesInheritedToken v1 = false) :
    mergeXcodeConfigValue (some (JSValue.str v1)) v2 = v2 ∧
    mergeXcodeConfigs [[(k, JSValue.str v1)], [(k, v2)]] = [(k, v2)] := by
  have h1 : mergeXcodeConfigValue (some (JSValue.str v1)) v2 = v2 := by
    rw [show mergeXcodeConfigValue (some (JSValue.str v1)) v2
        = if v1 ≠ "" ∧ includesInheritedToken v1 = true then
            JSValue.str ("$(inherited) " ++
              collapseInheritedReplace (v1 ++ " " ++ jsValueToString v2))
          else v2 from rfl]
    rw [if_neg]
    rintro ⟨-, hinc⟩
    rw [h] at hinc
    exact Bool.false_ne_true hinc
  refine ⟨h1, ?_⟩
  unfold mergeXcodeConfigs
  simp [setKey, lookupKey, List.find?, h1, mergeXcodeConfigValue_none]

/-- C8 witness: merging A mapped to x with A mapped to y yields A mapped
to y. -/
theorem claim_C8_witness :
    mergeXcodeConfigs [[("A", JSValue.str "x")], [("A", JSValue.str "y")]]
      = [("A", JSValue.str "y")] :=
  (claim_C8 "A" "x" (JSValue.str "y") (by decide)).2

theorem toLower_of_isUpper {c : Char} (h : c.isUpper = true) :
    c.toLower.isUpper = false ∧ c.toLower ≠ '_' := by
  have hb : 65 ≤ c.toNat ∧ c.toNat ≤ 90 := by
    unfold Char.isUpper at h
    rw [Bool.and_eq_true, decide_eq_true_eq, decide_eq_true_eq] at h
    exact ⟨h.1, h.2⟩
  have hl : c.toLower = Char.ofNat (c.toNat + 32) := by
    unfold Char.toLower
    rw [if_pos]
    exact hb
  have key : ∀ n < 123, 97 ≤ n → ((Char.ofNat n).isUpper = false ∧ ¬(Char.ofNat n = '_')) := by
    decide
  rw [hl]
  exact key (c.toNat + 32) (by omega) (by omega)

theorem mem_collapseSepsFuel_ne_underscore :
    ∀ (fuel : Nat) (cs : List Char) (c : Char), c ∈ collapseSepsFuel fuel cs → c ≠ '_' := by
  intro fuel
  induction fuel with
  | zero =>
    intro cs c hc
    simp [collapseSepsFuel] at hc
  | succ n ih =>
    intro cs c hc
    cases cs with
    | nil => simp [collapseSepsFuel] at hc
    | cons a rest =>
      rw [collapseSepsFuel] at hc
      by_cases ha : isBundleSep a = true
      · rw [if_pos ha] at hc
        rcases List.mem_cons.mp hc with h1 | h1
        · subst h1; decide
        · exact ih _ _ h1
      · rw [if_neg ha] at hc
        rcases List.mem_cons.mp hc with h1 | h1
        · subst h1
          intro heq
          subst heq
          exact ha (by decide)
        · exact ih _ _ h1

theorem mem_lowerUpperFuel_lowered :
    ∀ (fuel : Nat) (cs : List Char), (∀ x ∈ cs, x ≠ '_') →
      ∀ c ∈ lowerUpperFuel fuel cs, c.isUpper = false ∧ c ≠ '_' := by
  intro fuel
  induction fuel with
  | zero =>
    intro cs _ c hc
    simp [lowerUpperFuel] at hc
  | succ n ih =>
    intro cs hcs c hc
    cases cs with
    | nil => simp [lowerUpperFuel] at hc
    | cons a rest =>
      rw [lowerUpperFuel] at hc
      by_cases ha : a.isUpper = true
      · rw [if_pos ha] at hc
        rcases List.mem_cons.mp hc with h1 | h1
        · subst h1; decide
        · rcases List.mem_append.mp h1 with h2 | h2
          · rcases List.mem_map.mp h2 with ⟨x, hx, hxe⟩
            subst hxe
            rcases List.mem_cons.mp hx with h3 | h3
            · subst h3; exact toLower_of_isUpper ha
            · exact toLower_of_isUpper (List.mem_takeWhile_imp h3)
          · exact ih _ (fun x hx => hcs x (List.mem_cons_of_mem _
              ((List.dropWhile_sublist _).subset hx))) c h2
      · rw [if_neg ha] at hc
        have hafalse : a.isUpper = false := by
          cases hval : a.isUpper
          · rfl
          · exact absurd hval ha
        by_cases hd : a = '.'
        · rw [if_pos hd] at hc
          cases hsplit : rest.dropWhile (fun x => x == '.') with
          | nil =>
            rw [hsplit] at hc
            have hc2 : c ∈ a :: rest.takeWhile (fun x => x == '.') := hc
            rcases List.mem_cons.mp hc2 with h1 | h1
            · rw [h1]; exact ⟨hafalse, hcs a (List.mem_cons_self a rest)⟩
            · have hbeq := List.mem_takeWhile_imp h1
              have hcd : c = '.' := by simpa using hbeq
              subst hcd; decide
          | cons d ds =>
            rw [hsplit] at hc
            have hc2 : c ∈ (if d.isUpper = true then
                '.' :: (d :: ds.takeWhile Char.isUpper).map Char.toLower
                  ++ lowerUpperFuel n (ds.dropWhile Char.isUpper)
              else
                (a :: rest.takeWhile (fun x => x == '.'))
                  ++ lowerUpperFuel n (d :: ds)) := hc
            by_cases hdu : d.isUpper = true
            · rw [if_pos hdu] at hc2
              rcases List.mem_cons.mp hc2 with h1 | h1
              · subst h1; decide
              · rcases List.mem_append.mp h1 with h2 | h2
                · rcases List.mem_map.mp h2 with ⟨x, hx, hxe⟩
                  subst hxe
                  rcases List.mem_cons.mp hx with h3 | h3
                  · subst h3; exact toLower_of_isUpper hdu
                  · exact toLower_of_isUpper (List.mem_takeWhile_imp h3)
                · refine ih _ (fun x hx => ?_) c h2
                  have hx1 : x ∈ ds := (List.dropWhile_sublist _).subset hx
                  have hx2 : x ∈ rest.dropWhile (fun y => y == '.') := by
                    rw [hsplit]; exact List.mem_cons_of_mem _ hx1
                  exact hcs x (List.mem_cons_of_mem _
                    ((List.dropWhile_sublist _).subset hx2))
            · rw [if_neg hdu] at hc2
              rcases List.mem_append.mp hc2 with h1 | h1
              · rcases List.mem_cons.mp h1 with h2 | h2
                · rw [h2]; exact ⟨hafalse, hcs a (List.mem_cons_self a rest)⟩
                · have hbeq2 := List.mem_takeWhile_imp h2
                  have hcd : c = '.' := by simpa using hbeq2
                  subst hcd; decide
              · refine ih _ (fun x hx => ?_) c h1
                have hx2 : x ∈ rest.dropWhile (fun y => y == '.') := by
                  rw [hsplit]; exact hx
                exact hcs x (List.mem_cons_of_mem _
                  ((List.dropWhile_sublist _).subset hx2))
        · rw [if_neg hd] at hc
          rcases List.mem_cons.mp hc with h1 | h1
          · rw [h1]; exact ⟨hafalse, hcs a (List.mem_cons_self a rest)⟩
          · exact ih _ (fun x hx => hcs x (List.mem_cons_of_mem _ hx)) c h1

/-- C10: every character of a derived bundle identifier is neither an
uppercase letter nor an underscore, for every input pod name. -/
theorem claim_C10 (podName : String) :
    ((podNameToBundleId podName).data.all (fun c => !c.isUpper && !(c == '_'))) = true := by
  rw [List.all_eq_true]
  intro c hc
  have hdata : (podNameToBundleId podName).data
      = lowerUpperFuel
          (collapseSeps (anchoredReplace "EX".data "expo".data
            (anchoredReplace "UM".data "unimodules".data podName.data))).length
          (collapseSeps (anchoredReplace "EX".data "expo".data
            (anchoredReplace "UM".data "unimodules".data podName.data))) := rfl
  rw [hdata] at hc
  have h2 := mem_lowerUpperFuel_lowered _ _
    (fun x hx => mem_collapseSepsFuel_ne_underscore _ _ x hx) c hc
  rw [Bool.and_eq_true, Bool.not_eq_true', h2.1]
  refine ⟨rfl, ?_⟩
  rw [Bool.not_eq_true', beq_eq_false_iff_ne]
  exact h2.2

theorem prebuild_flatten_filterMap_arg (can : Pkg → Bool) (parcels : List Parcel) :
    ((parcels.map (fun parcel =>
        if can parcel.pkg then
          [TaskEvent.prebuildInfoLine parcel.pkg.packageName,
           TaskEvent.prebuildPackage parcel.pkg]
        else [])).flatten).filterMap prebuildArg
      = (parcels.map (fun parcel => parcel.pkg)).filter can := by
  induction parcels with
  | nil => rfl
  | cons p ps ih =>
    by_cases h : can p.pkg = true
    · simp only [List.map_cons, List.flatten_cons, List.filterMap_append, if_pos h,
        List.filter_cons, h, if_true]
      rw [ih]
      rfl
    · have hfalse : can p.pkg = false := by
        cases hval : can p.pkg
        · rfl
        · exact absurd hval h
      simp only [List.map_cons, List.flatten_cons, List.filterMap_append, if_neg h,
        List.filter_cons, hfalse]
      rw [ih]
      rfl

theorem prebuild_flatten_filterMap_log (can : Pkg → Bool) (parcels : List Parcel) :
    ((parcels.map (fun parcel =>
        if can parcel.pkg then
          [TaskEvent.prebuildInfoLine parcel.pkg.packageName,
           TaskEvent.prebuildPackage parcel.pkg]
        else [])).flatten).filterMap prebuildLogName
      = ((parcels.map (fun parcel => parcel.pkg)).filter can).map Pkg.packageName := by
  induction parcels with
  | nil => rfl
  | cons p ps ih =>
    by_cases h : can p.pkg = true
    · simp only [List.map_cons, List.flatten_cons, List.filterMap_append, if_pos h,
        List.filter_cons, h, if_true]
      rw [ih]
      rfl
    · have hfalse : can p.pkg = false := by
        cases hval : can p.pkg
        · rfl
        · exact absurd hval h
      simp only [List.map_cons, List.flatten_cons, List.filterMap_append, if_neg h,
        List.filter_cons, hfalse]
      rw [ih]
      rfl

/-- C9: cleaning invokes the external clean operation exactly once, on
precisely the prebuildable packages, and only when some package is
prebuildable, logging only the blank line otherwise; prebuilding invokes
the external prebuild operation once per prebuildable package in input
order and logs one info line per such package, in order. -/
theorem claim_C9 (canPrebuildPackage : Pkg → Bool) (parcels : List Parcel) :
    (cleanPrebuilds canPrebuildPackage parcels).filterMap cleanArg
      = (if (parcels.map (fun parcel => parcel.pkg)).filter canPrebuildPackage = []
         then []
         else [(parcels.map (fun parcel => parcel.pkg)).filter canPrebuildPackage]) ∧
    cleanPrebuilds canPrebuildPackage parcels
      = (if (parcels.map (fun parcel => parcel.pkg)).filter canPrebuildPackage = []
         then [TaskEvent.blankLine]
         else [TaskEvent.blankLine, TaskEvent.cleanInfoLine,
           TaskEvent.cleanFrameworks
             ((parcels.map (fun parcel => parcel.pkg)).filter canPrebuildPackage)]) ∧
    (prebuildPackages canPrebuildPackage parcels).filterMap prebuildArg
      = (parcels.map (fun parcel => parcel.pkg)).filter canPrebuildPackage ∧
    (prebuildPackages canPrebuildPackage parcels).filterMap prebuildLogName
      = ((parcels.map (fun parcel => parcel.pkg)).filter canPrebuildPackage).map
          Pkg.packageName := by
  have hclean : cleanPrebuilds canPrebuildPackage parcels
      = TaskEvent.blankLine ::
        (if ((parcels.map (fun parcel => parcel.pkg)).filter canPrebuildPackage).length ≠ 0
         then [TaskEvent.cleanInfoLine,
           TaskEvent.cleanFrameworks
             ((parcels.map (fun parcel => parcel.pkg)).filter canPrebuildPackage)]
         else []) := rfl
  refine ⟨?_, ?_, ?_, ?_⟩
  · by_cases hemp : (parcels.map (fun parcel => parcel.pkg)).filter canPrebuildPackage = []
    · rw [if_pos hemp, hclean, hemp]
      rfl
    · have hlen : ((parcels.map (fun parcel => parcel.pkg)).filter canPrebuildPackage).length
          ≠ 0 := by
        intro h0
        exact hemp (List.length_eq_zero.mp h0)
      rw [if_neg hemp, hclean, if_pos hlen]
      rfl
  · by_cases hemp : (parcels.map (fun parcel => parcel.pkg)).filter canPrebuildPackage = []
    · rw [if_pos hemp, hclean, hemp]
      rfl
    · have hlen : ((parcels.map (fun parcel => parcel.pkg)).filter canPrebuildPackage).length
          ≠ 0 := by
        intro h0
        exact hemp (List.length_eq_zero.mp h0)
      rw [if_neg hemp, hclean, if_pos hlen]
  · unfold prebuildPackages
    rw [show ∀ l : List TaskEvent, (TaskEvent.blankLine :: l).filterMap prebuildArg
        = l.filterMap prebuildArg from fun l => rfl]
    exact prebuild_flatten_filterMap_arg canPrebuildPackage parcels
  · unfold prebuildPackages
    rw [show ∀ l : List TaskEvent, (TaskEvent.blankLine :: l).filterMap prebuildLogName
        = l.filterMap prebuildLogName from fun l => rfl]
    exact prebuild_flatten_filterMap_log canPrebuildPackage parcels

theorem setKey_fresh {α : Type} (m : List (String × α)) (k : String) (v : α)
    (h : ∀ kv ∈ m, kv.1 ≠ k) : setKey m k v = m ++ [(k, v)] := by
  have hno : ¬(m.any (fun kv => kv.1 == k) = true) := by
    intro hany
    rcases List.any_eq_true.mp hany with ⟨kv, hkv, hbeq⟩
    exact h kv hkv (by simpa using hbeq)
  unfold setKey
  rw [if_neg hno]

theorem foldl_setKey_map_deployment :
    ∀ (l : List (String × String)) (acc : List (String × String)),
      (l.map (fun kv => mappedPlatformKey kv.1)).Nodup →
      (∀ kv ∈ l, ∀ kv2 ∈ acc, kv2.1 ≠ mappedPlatformKey kv.1) →
      l.foldl (fun acc kv => setKey acc (mappedPlatformKey kv.1) kv.2) acc
        = acc ++ l.map (fun kv => (mappedPlatformKey kv.1, kv.2)) := by
  intro l
  induction l with
  | nil =>
    intro acc _ _
    simp
  | cons kv l ih =>
    intro acc hnd hdisj
    rw [List.map_cons] at hnd
    have hnd2 := List.nodup_cons.mp hnd
    have hdisj2 : ∀ kv3 ∈ l, ∀ kv2 ∈ acc ++ [(mappedPlatformKey kv.1, kv.2)],
        kv2.1 ≠ mappedPlatformKey kv3.1 := by
      intro kv3 h3 kv2 h2
      rcases List.mem_append.mp h2 with h4 | h4
      · exact hdisj kv3 (List.mem_cons_of_mem _ h3) kv2 h4
      · have h5 : kv2 = (mappedPlatformKey kv.1, kv.2) := by simpa using h4
        rw [h5]
        intro heq
        have heq2 : mappedPlatformKey kv.1 = mappedPlatformKey kv3.1 := heq
        refine hnd2.1 ?_
        rw [heq2]
        exact List.mem_map.mpr ⟨kv3, h3, rfl⟩
    rw [List.foldl_cons,
      setKey_fresh _ _ _ (fun kv2 h2 => hdisj kv (List.mem_cons_self _ _) kv2 h2),
      ih (acc ++ [(mappedPlatformKey kv.1, kv.2)]) hnd2.2 hdisj2,
      List.map_cons, List.append_assoc]
    rfl

/-- C2: for every manifest whose platform keys are all in the fixed
mapping table and map to pairwise distinct platform names, the produced
deployment-target map pairs each translated key with that platform
version, in order; in particular a manifest with the single platform ios
at 12.0 yields iOS at 12.0 (see the witness). -/
theorem claim_C2 (podspec : Podspec)
    (dependencyResolver : String → Option ProjectSpecDependency) (spec : ProjectSpec)
    (hspec : createSpecFromPodspecAsync podspec dependencyResolver = some spec)
    (_hmapped : ∀ kv ∈ podspec.platforms, (PLATFORMS_MAPPING kv.1).isSome = true)
    (hnodup : (podspec.platforms.map (fun kv => mappedPlatformKey kv.1)).Nodup) :
    spec.options.deploymentTarget
      = podspec.platforms.map (fun kv => (mappedPlatformKey kv.1, kv.2)) := by
  unfold createSpecFromPodspecAsync at hspec
  cases hm : semverMajor podspec.version with
  | none =>
    rw [hm] at hspec
    exact Option.noConfusion hspec
  | some major =>
    rw [hm] at hspec
    have hrec := Option.some.inj hspec
    rw [← hrec]
    show podspec.platforms.foldl
        (fun acc kv => setKey acc (mappedPlatformKey kv.1) kv.2) [] = _
    rw [foldl_setKey_map_deployment podspec.platforms [] hnodup
      (fun kv _ kv2 h2 => absurd h2 (List.not_mem_nil kv2))]
    rfl

/-- C2 witness: the manifest with platform map ios at 12.0 produces the
deployment-target map iOS at 12.0. -/
theorem claim_C2_witness :
    (createSpecFromPodspecAsync iosOnlyPodspec emptyResolver).map
      (fun spec => spec.options.deploymentTarget) = some [("iOS", "12.0")] := by
  cases hspec : createSpecFromPodspecAsync iosOnlyPodspec emptyResolver with
  | none => exact absurd hspec (by decide)
  | some spec =>
    have h := claim_C2 iosOnlyPodspec emptyResolver spec hspec (by decide) (by decide)
    simp only [Option.map_some']
    rw [h]
    decide

theorem filterMap_id_map {α β : Type} (f : α → Option β) (l : List α) :
    (l.map f).filterMap id = l.filterMap f := by
  rw [List.filterMap_map]
  rfl

/-- C4: the resolved portion of the produced target dependency list (after
the prepended SDK entries) is exactly the in-order filterMap of the
resolver over the declared dependency names: names the resolver resolves
to nothing are dropped, those it resolves appear in declaration order, and
membership is exactly resolution success. -/
theorem claim_C4 (podspec : Podspec)
    (dependencyResolver : String → Option ProjectSpecDependency) (spec : ProjectSpec)
    (hspec : createSpecFromPodspecAsync podspec dependencyResolver = some spec) :
    spec.target.dependencies
      = (arrayize podspec.frameworks).map
          (fun framework => { sdk := some (framework ++ ".framework") })
        ++ (depNames podspec).filterMap dependencyResolver ∧
    (∀ d : ProjectSpecDependency,
      d ∈ (depNames podspec).filterMap dependencyResolver
        ↔ ∃ n ∈ depNames podspec, dependencyResolver n = some d) := by
  constructor
  · unfold createSpecFromPodspecAsync at hspec
    cases hm : semverMajor podspec.version with
    | none =>
      rw [hm] at hspec
      exact Option.noConfusion hspec
    | some major =>
      rw [hm] at hspec
      have hrec := Option.some.inj hspec
      rw [← hrec]
      show (arrayize podspec.frameworks).map
            (fun framework => { sdk := some (framework ++ ".framework") })
          ++ ((depNames podspec).map dependencyResolver).filterMap id = _
      rw [filterMap_id_map]
  · intro d
    exact List.mem_filterMap

/-- C4 witness: against the manifest declaring Z then Y and the resolver
yielding nothing for Z and a descriptor for Y, the produced dependency
list is exactly the one descriptor for Y. -/
theorem claim_C4_witness :
    (createSpecFromPodspecAsync zyPodspec zyResolver).map
      (fun spec => spec.target.dependencies) = some [yDependency] := by
  cases hspec : createSpecFromPodspecAsync zyPodspec zyResolver with
  | none => exact absurd hspec (by decide)
  | some spec =>
    have h := (claim_C4 zyPodspec zyResolver spec hspec).1
    simp only [Option.map_some']
    rw [h]
    decide

/-- C5: for a manifest declaring the framework CoreLocation, version
1.2.3, and no info-plist overrides, the produced target dependency list is
the SDK entry CoreLocation.framework prepended to the resolved
dependencies, and the generated info block carries the numeric major
version one under CFBundleVersion. -/
theorem claim_C5 (podspec : Podspec)
    (dependencyResolver : String → Option ProjectSpecDependency) (spec : ProjectSpec)
    (hspec : createSpecFromPodspecAsync podspec dependencyResolver = some spec)
    (_hsf : podspec.source_files = StrOrArr.one "Sources/**/*.m")
    (hfw : podspec.frameworks = StrOrArr.many ["CoreLocation"])
    (hv : podspec.version = "1.2.3")
    (hip : podspec.info_plist = none) :
    spec.target.dependencies
      = ({ sdk := some "CoreLocation.framework" } : ProjectSpecDependency)
        :: (depNames podspec).filterMap dependencyResolver ∧
    lookupKey spec.target.infoProperties "CFBundleVersion" = some (JSValue.num 1) := by
  unfold createSpecFromPodspecAsync at hspec
  rw [hv] at hspec
  rw [show semverMajor "1.2.3" = some 1 from rfl] at hspec
  have hrec := Option.some.inj hspec
  constructor
  · rw [← hrec]
    show (arrayize podspec.frameworks).map
          (fun framework => { sdk := some (framework ++ ".framework") })
        ++ ((depNames podspec).map dependencyResolver).filterMap id = _
    rw [filterMap_id_map, hfw]
    rfl
  · rw [← hrec]
    show lookupKey (mergeXcodeConfigs
        [[("CFBundleIdentifier", JSValue.str (podNameToBundleId podspec.name)),
          ("CFBundleName", JSValue.str podspec.name),
          ("CFBundleShortVersionString", JSValue.str "1.2.3"),
          ("CFBundleVersion", JSValue.num 1)],
         podspec.info_plist.getD []]) "CFBundleVersion" = some (JSValue.num 1)
    rw [hip]
    show lookupKey (mergeXcodeConfigs
        [[("CFBundleIdentifier", JSValue.str (podNameToBundleId podspec.name)),
          ("CFBundleName", JSValue.str podspec.name),
          ("CFBundleShortVersionString", JSValue.str "1.2.3"),
          ("CFBundleVersion", JSValue.num 1)], []]) "CFBundleVersion" = some (JSValue.num 1)
    simp [mergeXcodeConfigs, setKey, lookupKey, List.find?, mergeXcodeConfigValue_none]

theorem dedupFirst_go_mem (l : List String) :
    ∀ (acc : List String) (x : String),
      (x ∈ l.foldl (fun acc y => if y ∈ acc then acc else acc ++ [y]) acc)
        ↔ x ∈ acc ∨ x ∈ l := by
  induction l with
  | nil =>
    intro acc x
    simp
  | cons y l ih =>
    intro acc x
    rw [List.foldl_cons]
    by_cases hy : y ∈ acc
    · rw [if_pos hy, ih]
      constructor
      · rintro (h | h)
        · exact Or.inl h
        · exact Or.inr (List.mem_cons_of_mem _ h)
      · rintro (h | h)
        · exact Or.inl h
        · rcases List.mem_cons.mp h with h2 | h2
          · exact Or.inl (h2 ▸ hy)
          · exact Or.inr h2
    · rw [if_neg hy, ih]
      simp only [List.mem_append, List.mem_cons, List.mem_singleton]
      tauto

theorem dedupFirst_go_nodup (l : List String) :
    ∀ acc : List String, acc.Nodup →
      (l.foldl (fun acc y => if y ∈ acc then acc else acc ++ [y]) acc).Nodup := by
  induction l with
  | nil =>
    intro acc h
    simpa using h
  | cons y l ih =>
    intro acc h
    rw [List.foldl_cons]
    by_cases hy : y ∈ acc
    · rw [if_pos hy]
      exact ih acc h
    · rw [if_neg hy]
      refine ih _ ?_
      rw [List.nodup_append]
      exact ⟨h, List.nodup_singleton y,
        fun a ha hb => hy ((List.mem_singleton.mp hb) ▸ ha)⟩

theorem mem_podsToSearchForHeaders (dependencies : List String) (p : String) :
    p ∈ podsToSearchForHeaders dependencies
      ↔ p = "" ∨ p ∈ dependencies ∨ p ∈ fixedHeaderPods := by
  unfold podsToSearchForHeaders dedupFirst
  rw [dedupFirst_go_mem]
  simp only [List.not_mem_nil, false_or, List.mem_cons, List.mem_append]
  exact or_assoc

theorem podsToSearchForHeaders_nodup (dependencies : List String) :
    (podsToSearchForHeaders dependencies).Nodup := by
  unfold podsToSearchForHeaders dedupFirst
  exact dedupFirst_go_nodup _ [] List.nodup_nil

theorem joinData_getLast_quote :
    ∀ l : List String, l ≠ [] → (∀ x ∈ l, x.data.getLast? = some '"') →
      (joinData l).getLast? = some '"' := by
  intro l
  induction l with
  | nil =>
    intro h
    exact absurd rfl h
  | cons x l ih =>
    intro _ hall
    cases l with
    | nil => exact hall x (List.mem_singleton.mpr rfl)
    | cons y ys =>
      rw [show joinData (x :: y :: ys) = x.data ++ ' ' :: joinData (y :: ys) from rfl]
      rw [List.getLast?_append_of_ne_nil _ (by simp)]
      have hrec := ih (by simp) (fun z hz => hall z (List.mem_cons_of_mem _ hz))
      have hne : joinData (y :: ys) ≠ [] := by
        intro h0
        rw [h0] at hrec
        exact Option.noConfusion hrec
      rw [show (' ' :: joinData (y :: ys)) = [' '] ++ joinData (y :: ys) from rfl]
      rw [List.getLast?_append_of_ne_nil _ hne]
      exact hrec

theorem quotedHeaderPath_getLast (p : String) :
    (quotedHeaderPath p).data.getLast? = some '"' := by
  unfold quotedHeaderPath
  rw [String.data_append]
  rw [List.getLast?_append_of_ne_nil _ (by decide)]
  decide

theorem jsTrim_of_ends (s : String) (c : Char) (cs : List Char) (d : Char)
    (hcons : s.data = c :: cs) (hcws : c.isWhitespace = false)
    (hd : s.data.getLast? = some d) (hdws : d.isWhitespace = false) :
    jsTrim s = s := by
  unfold jsTrim
  rw [hcons]
  rw [List.dropWhile_cons_of_neg (by simp [hcws])]
  have hd2 : (c :: cs).getLast? = some d := hcons ▸ hd
  cases hrev : (c :: cs).reverse with
  | nil => exact absurd (congrArg List.length hrev) (by simp)
  | cons e t =>
    have he : e = d := by
      have h1 : (c :: cs).reverse.head? = some e := by rw [hrev]; rfl
      rw [List.head?_reverse, hd2] at h1
      exact (Option.some.inj h1).symm
    rw [List.dropWhile_cons_of_neg (by rw [he]; simp [hdws])]
    rw [← hrev, List.reverse_reverse, ← hcons]

/-- C6 counterexample: the claim describes the searched pod set as the
empty string, the dependency names, and eight fixed well-known library
names, so with no dependencies it would contain at most nine names; the
code builds a set of ten, because the source lists nine fixed library
names. -/
theorem claim_C6_counterexample :
    (podsToSearchForHeaders []).length = 10 := by
  decide

/-- C6 (amended to nine fixed names): for every dependency-name list, the
header search path string is exactly the inherited token followed by the
double-quoted public-header paths, under the fixed root, of the
insertion-ordered set consisting of the empty name, the dependencies, and
the nine fixed well-known library names; the set is duplicate-free,
membership is exactly that description, and the empty name - the root
public headers directory - is always included. -/
theorem claim_C6 (dependencies : List String) :
    (constructHeaderSearchPaths dependencies).data
      = "$(inherited) ".data
        ++ joinData ((podsToSearchForHeaders dependencies).map quotedHeaderPath) ∧
    (podsToSearchForHeaders dependencies).Nodup ∧
    (∀ p, p ∈ podsToSearchForHeaders dependencies
      ↔ p = "" ∨ p ∈ dependencies ∨ p ∈ fixedHeaderPods) ∧
    "" ∈ podsToSearchForHeaders dependencies ∧
    fixedHeaderPods.length = 9 := by
  have hmem : "" ∈ podsToSearchForHeaders dependencies :=
    (mem_podsToSearchForHeaders dependencies "").mpr (Or.inl rfl)
  have hpodsne : (podsToSearchForHeaders dependencies).map quotedHeaderPath ≠ [] := by
    intro h0
    rw [← List.length_eq_zero] at h0
    rw [List.length_map] at h0
    rw [List.length_eq_zero] at h0
    rw [h0] at hmem
    exact List.not_mem_nil _ hmem
  have hlast : (joinData ((podsToSearchForHeaders dependencies).map quotedHeaderPath)).getLast?
      = some '"' := by
    refine joinData_getLast_quote _ hpodsne ?_
    intro x hx
    rcases List.mem_map.mp hx with ⟨q, _, hqx⟩
    rw [← hqx]
    exact quotedHeaderPath_getLast q
  have hfull : ("$(inherited) " ++
      joinSpace ((podsToSearchForHeaders dependencies).map quotedHeaderPath)).data
      = "$(inherited) ".data
        ++ joinData ((podsToSearchForHeaders dependencies).map quotedHeaderPath) :=
    String.data_append _ _
  have hjoin_ne : joinData ((podsToSearchForHeaders dependencies).map quotedHeaderPath)
      ≠ [] := by
    intro h0
    rw [h0] at hlast
    exact Option.noConfusion hlast
  have htrim : jsTrim ("$(inherited) " ++
      joinSpace ((podsToSearchForHeaders dependencies).map quotedHeaderPath))
      = "$(inherited) " ++
        joinSpace ((podsToSearchForHeaders dependencies).map quotedHeaderPath) := by
    refine jsTrim_of_ends _ '$'
      ("(inherited) ".data
        ++ joinData ((podsToSearchForHeaders dependencies).map quotedHeaderPath)) '"'
      ?_ (by decide) ?_ (by decide)
    · rw [hfull]
      rfl
    · rw [hfull]
      rw [List.getLast?_append_of_ne_nil _ hjoin_ne]
      exact hlast
  refine ⟨?_, podsToSearchForHeaders_nodup dependencies,
    mem_podsToSearchForHeaders dependencies, hmem, rfl⟩
  unfold constructHeaderSearchPaths
  rw [htrim]
  exact hfull

theorem pathJoin_suffix_ne (dir n s1 s2 : String)
    (h1 : s1.data ≠ []) (h2 : s2.data ≠ []) (hne : s1.data ≠ s2.data) :
    pathJoin dir (n ++ s1) ≠ pathJoin dir (n ++ s2) := by
  have hne1 : ¬(n ++ s1 = "") := by
    intro h0
    have hdata := congrArg String.data h0
    rw [String.data_append] at hdata
    exact h1 (List.append_eq_nil.mp hdata).2
  have hne2 : ¬(n ++ s2 = "") := by
    intro h0
    have hdata := congrArg String.data h0
    rw [String.data_append] at hdata
    exact h2 (List.append_eq_nil.mp hdata).2
  unfold pathJoin
  rw [if_neg hne1, if_neg hne2]
  intro heq
  have hdata := congrArg String.data heq
  simp only [String.data_append] at hdata
  exact hne (List.append_cancel_left (List.append_cancel_left hdata))

/-- C7: the generator invoker writes the serialized spec to the spec-json
path inside the directory; on success it performs exactly the write, the
subprocess run, and the removal of the temporary spec file, and returns
the expected project path even though no performed effect ever touches
that path (nothing verifies the generator produced it); on failure it has
performed only the write - the temporary spec file is not removed - and
no path is returned. -/
theorem claim_C7 (dir : String) (spec : ProjectSpec) :
    (generateXcodeProjectAsync dir spec true).2
      = some (pathJoin dir (spec.name ++ ".xcodeproj")) ∧
    (generateXcodeProjectAsync dir spec true).1
      = [FsEffect.outputJSON (pathJoin dir (spec.name ++ ".spec.json")),
         FsEffect.spawnXcodegen (pathJoin dir (spec.name ++ ".spec.json")),
         FsEffect.removeFile (pathJoin dir (spec.name ++ ".spec.json"))] ∧
    ((generateXcodeProjectAsync dir spec true).1.all
      (fun e => !(effectPath e == pathJoin dir (spec.name ++ ".xcodeproj")))) = true ∧
    (generateXcodeProjectAsync dir spec false).2 = none ∧
    (generateXcodeProjectAsync dir spec false).1
      = [FsEffect.outputJSON (pathJoin dir (spec.name ++ ".spec.json"))] ∧
    ((generateXcodeProjectAsync dir spec false).1.contains
      (FsEffect.removeFile (pathJoin dir (spec.name ++ ".spec.json")))) = false := by
  have hne : pathJoin dir (spec.name ++ ".spec.json")
      ≠ pathJoin dir (spec.name ++ ".xcodeproj") :=
    pathJoin_suffix_ne dir spec.name ".spec.json" ".xcodeproj"
      (by decide) (by decide) (by decide)
  have hbeq : (pathJoin dir (spec.name ++ ".spec.json")
      == pathJoin dir (spec.name ++ ".xcodeproj")) = false :=
    beq_eq_false_iff_ne.mpr hne
  refine ⟨rfl, rfl, ?_, rfl, rfl, rfl⟩
  show (List.all
      [FsEffect.outputJSON (pathJoin dir (spec.name ++ ".spec.json")),
       FsEffect.spawnXcodegen (pathJoin dir (spec.name ++ ".spec.json")),
       FsEffect.removeFile (pathJoin dir (spec.name ++ ".spec.json"))]
      (fun e => !(effectPath e == pathJoin dir (spec.name ++ ".xcodeproj")))) = true
  simp only [List.all_cons, List.all_nil, Bool.and_true]
  rw [show effectPath (FsEffect.outputJSON (pathJoin dir (spec.name ++ ".spec.json")))
      = pathJoin dir (spec.name ++ ".spec.json") from rfl]
  rw [show effectPath (FsEffect.spawnXcodegen (pathJoin dir (spec.name ++ ".spec.json")))
      = pathJoin dir (spec.name ++ ".spec.json") from rfl]
  rw [show effectPath (FsEffect.removeFile (pathJoin dir (spec.name ++ ".spec.json")))
      = pathJoin dir (spec.name ++ ".spec.json") from rfl]
  rw [hbeq]
  rfl

/-- C5 witness: the manifest with source glob Sources, framework
CoreLocation and version 1.2.3 produces exactly the SDK dependency entry
CoreLocation.framework and the info value CFBundleVersion one. -/
theorem claim_C5_witness :
    (createSpecFromPodspecAsync coreLocationPodspec emptyResolver).map
      (fun spec => (spec.target.dependencies,
        lookupKey spec.target.infoProperties "CFBundleVersion"))
      = some ([{ sdk := some "CoreLocation.framework" }], some (JSValue.num 1)) := by
  cases hspec : createSpecFromPodspecAsync coreLocationPodspec emptyResolver with
  | none => exact absurd hspec (by decide)
  | some spec =>
    have h := claim_C5 coreLocationPodspec emptyResolver spec hspec rfl rfl rfl rfl
    simp only [Option.map_some']
    rw [h.1, h.2]
    decide
